import Mathlib

/-!
Verification of the shopping-cart and category-tree core of the
`shekharcarpenter/e-commerce` Django storefront, as a shallow embedding.

The embedding follows `src/shop/models.py` (Category, Cart, CartProduct),
`src/users/models.py` (User.cart / User.wish_list) and
`src/shop/views.py` (cache_payment).  Database tables are lists of
records, ORM updates are list maps, and exceptions are surfaced as
explicit error values.
-/

namespace Shop

/-! ## Cart engine

Source: `src/shop/models.py`, classes `Cart` (lines 398-658) and
`CartProduct` (lines 661-706), module-level status constants at line 394. -/

/-- Status constants, module level in `models.py` line 394:
`OPEN, MERGED, SAVED, FROZEN, SUBMITTED = ("Open", "Merged", "Saved", "Frozen", "Submitted")`. -/
def OPEN : String := "Open"

/-- Module-level constant, `models.py` line 394. -/
def MERGED : String := "Merged"

/-- Module-level constant, `models.py` line 394. -/
def SAVED : String := "Saved"

/-- Module-level constant, `models.py` line 394. -/
def FROZEN : String := "Frozen"

/-- Module-level constant, `models.py` line 394. -/
def SUBMITTED : String := "Submitted"

/-- The fields of `shop.Product` that the cart logic reads: the primary key
and `price` (a `PositiveIntegerField`, hence `Nat`). -/
structure ProductM where
  id : Nat
  price : Nat
deriving DecidableEq, Repr

/-- One row of the `CartProduct` table (a cart line): the related product and
`quantity = models.PositiveIntegerField(default=1)` (line 674).  The `cart`
foreign key is implicit: a `Cart` holds its own rows. -/
structure CartProduct where
  product : ProductM
  quantity : Nat
deriving DecidableEq, Repr

/-- A `Cart` row together with its `CartProduct` rows: `status` is a
`CharField` defaulting to `OPEN` (line 420), `lines` are the rows of the
reverse relation `self.products`, in `Meta.ordering` order
(date_created, pk — i.e. insertion order, line 685). -/
structure Cart where
  status : String
  lines : List CartProduct
deriving DecidableEq, Repr

/-- Exceptions the embedded code can raise. -/
inductive DjangoError where
  | permissionDenied
  | attributeError
deriving DecidableEq, Repr

/-- `Cart.editable_statuses = (OPEN, SAVED)` (line 435). -/
def editable_statuses : List String := [OPEN, SAVED]

/-- `Cart.can_be_edited` (line 654): `self.status in self.editable_statuses`. -/
def Cart.can_be_edited (cart : Cart) : Bool :=
  editable_statuses.contains cart.status

/-- `CartProduct.price` (line 705): `self.product.price * self.quantity`. -/
def CartProduct.price (line : CartProduct) : Nat :=
  line.product.price * line.quantity

/-- `Cart.total_price` (line 476):
`sum([product.price for product in self.all_products()])`. -/
def Cart.total_price (cart : Cart) : Nat :=
  (cart.lines.map CartProduct.price).sum

/-- The overwrite branch of `Cart.add_product`:
`entry.quantity = quantity; entry.save()` writes the new quantity over the
row keyed by product id `pid`. -/
def overwriteQuantity (pid q : Nat) (ls : List CartProduct) : List CartProduct :=
  ls.map fun l => if l.product.id == pid then { l with quantity := q } else l

/-- `Cart.add_product` (lines 465-469):

```
entry, created = self.products.get_or_create(cart=self, product=product)
if not created:
    entry.quantity = quantity
    entry.save()
```

`get_or_create` first looks the row up by `(cart, product)`; on a miss it
creates the row with the model defaults, i.e. `quantity = 1` (the
`quantity` argument is not passed to the create), and the create runs
`CartProduct.save` (lines 697-702) which raises `PermissionDenied` when
`not self.cart.can_be_edited`, before any row is written.  On a hit the
quantity is overwritten and the same guarded `save` runs.  The returned
cart is the post-state; a `some` error means the exception propagated and
no row was written. -/
def Cart.add_product (cart : Cart) (product : ProductM) (quantity : Nat) :
    Cart × Option DjangoError :=
  match cart.lines.find? (fun l => l.product.id == product.id) with
  | none =>
      if cart.can_be_edited then
        ({ cart with lines := cart.lines ++ [{ product := product, quantity := 1 }] }, none)
      else
        (cart, some .permissionDenied)
  | some _ =>
      if cart.can_be_edited then
        ({ cart with lines := overwriteQuantity product.id quantity cart.lines }, none)
      else
        (cart, some .permissionDenied)

/-- Python attribute lookup of `self.FROZEN` on a `Cart` instance: the class
body of `Cart` binds no name `FROZEN` (the constants at `models.py` line 394
are module-level, unlike upstream django-oscar where they are class
attributes), and neither does `models.Model`; the lookup therefore raises
`AttributeError`.  `none` models that failure. -/
def Cart.attr_FROZEN : Option String := none

/-- `Cart.flush` (lines 505-512):

```
if self.status == self.FROZEN:
    raise PermissionDenied("A frozen cart cannot be flushed")
self.products.all().delete()
```

Evaluating `self.FROZEN` is the first step; since that lookup fails (see
`Cart.attr_FROZEN`), the comparison is never reached. -/
def Cart.flush (cart : Cart) : Cart × Option DjangoError :=
  match Cart.attr_FROZEN with
  | none => (cart, some .attributeError)
  | some frozen =>
      if cart.status == frozen then
        (cart, some .permissionDenied)
      else
        ({ cart with lines := [] }, none)

/-! ## Cart lookup/creation

Source: `src/users/models.py` lines 11-21: `User.cart` and `User.wish_list`
are exactly `Cart.objects.get_or_create(owner=self, status=OPEN|SAVED)`. -/

/-- One row of the `Cart` table as seen by `get_or_create`: primary key,
`owner` foreign key and `status`. -/
structure CartRow where
  id : Nat
  owner : Nat
  status : String
deriving DecidableEq, Repr

/-- The `Cart` table plus the next value of the auto-increment primary key. -/
structure CartStore where
  rows : List CartRow
  next_id : Nat
deriving DecidableEq, Repr

/-- The rows matching `owner=owner, status=status`. -/
def CartStore.matching (s : CartStore) (owner : Nat) (status : String) : List CartRow :=
  s.rows.filter (fun c => c.owner == owner && c.status == status)

/-- Django `Cart.objects.get_or_create(owner=owner, status=status)`
(`src/users/models.py` lines 14 and 20): `get` the unique matching row,
creating it with a fresh primary key when none exists; with two or more
matching rows `get` raises `MultipleObjectsReturned`, modelled as `none`.
The result carries the returned cart id and the post-state of the table. -/
def CartStore.get_or_create (s : CartStore) (owner : Nat) (status : String) :
    Option (Nat × CartStore) :=
  match s.matching owner status with
  | [] =>
      some (s.next_id,
        { rows := s.rows ++ [{ id := s.next_id, owner := owner, status := status }],
          next_id := s.next_id + 1 })
  | [c] => some (c.id, s)
  | _ => none

/-- A sequence of `get_or_create` calls, each given as an (owner, status)
pair; a raised `MultipleObjectsReturned` leaves the table unchanged. -/
def CartStore.runCalls (s : CartStore) (calls : List (Nat × String)) : CartStore :=
  calls.foldl
    (fun st c =>
      match st.get_or_create c.1 c.2 with
      | some r => r.2
      | none => st)
    s

/-! ## Checkout payment capture

Source: `src/shop/views.py` lines 77-92, `cache_payment`. -/

/-- Outcome of the external gateway call
`razorpay_client.payment.capture(payment_id, amount)`: per the spec's
payment-gateway contract the call either confirms the charge or fails,
and the razorpay client signals a failed capture by raising
`razorpay.errors.BadRequestError` — the exception type named by the
view's `except` clause. -/
inductive CaptureResult where
  | success
  | badRequestError
deriving DecidableEq, Repr

/-- Modelled from the spec: the `Order` model is imported by
`src/shop/views.py` from `shop.models` but its definition is not under
`src/`; spec section 3 gives its fields (customer reference, reference to
the frozen cart, status, creation timestamp — the view sets only the
first two). -/
structure OrderM where
  customer : Nat
  cartId : Nat
deriving DecidableEq, Repr

/-- The state `cache_payment` reads and writes: the requesting user's open
cart (`request.user.cart`) and the `Order` table. -/
structure CheckoutState where
  cartId : Nat
  cartStatus : String
  orders : List OrderM
deriving DecidableEq, Repr

/-- Where the view's response goes. -/
inductive HttpOutcome where
  | redirectHome
deriving DecidableEq, Repr

/-- Modelled from the spec: `constants.FROZEN`, imported by the view from a
`constants` module absent from `src/`; per spec section 4.3 the frozen
status value is the cart status string "Frozen". -/
def constants_FROZEN : String := FROZEN

/-- `cache_payment` (`src/shop/views.py` lines 77-92):

```
try:
    data = razorpay_client.payment.capture(payment_id, amount)
except razorpay.errors.BadRequestError:
    pass  # todo do something bro
cart = request.user.cart
order = Order.objects.create(customer=request.user, cart=cart)
cart.status = constants.FROZEN
cart.save()
return redirect('home:home')
```

The capture outcome is a parameter; a raised `BadRequestError` falls into
the bare `pass`, after which the code proceeds identically to the success
path. -/
def cache_payment (st : CheckoutState) (user : Nat) (capture : CaptureResult) :
    CheckoutState × HttpOutcome :=
  match capture with
  | .success =>
      ({ st with
          cartStatus := constants_FROZEN,
          orders := st.orders ++ [{ customer := user, cartId := st.cartId }] },
        .redirectHome)
  | .badRequestError =>
      ({ st with
          cartStatus := constants_FROZEN,
          orders := st.orders ++ [{ customer := user, cartId := st.cartId }] },
        .redirectHome)

/-! ## Category tree

Source: `src/shop/models.py`, class `Category` (lines 19-195), a treebeard
`MP_Node` materialized-path tree.  A path is modelled as the list of its
fixed-width segments, so the string comparison `path.startswith(other)` at
segment width is `List.isPrefixOf`; `depth` is stored separately, as in the
table, with well-formedness tying it to the path length.  The custom
`rstartswith` lookup used at line 118 is defined in `shop/fields.py`, which
is absent from `src/`; it is modelled from the spec (sections 4.1 and 9) as
the reversed prefix test: the outer row's path starts with the filtered
row's path. -/

/-- One row of the `Category` table: primary key, materialized path, stored
`depth`, `slug`, and the two visibility flags (`models.py` lines 36-48). -/
structure CatNode where
  id : Nat
  path : List Nat
  depth : Nat
  slug : String
  is_public : Bool
  ancestors_are_public : Bool
deriving DecidableEq, Repr

/-- The correlated subquery of `Category.set_ancestors_are_public`
(lines 117-119) evaluated for an outer row with path `p` and depth `d`:
does some row with `is_public=False` have a path that `p` starts with
(`path__rstartswith=OuterRef("path")`) and `depth__lt=OuterRef("depth")`? -/
def hasNonPublicAncestor (table : List CatNode) (p : List Nat) (d : Nat) : Bool :=
  table.any fun a =>
    !a.is_public && List.isPrefixOf a.path p && decide (a.depth < d)

/-- Treebeard membership test of `self.get_descendants_and_self()`
(line 156, = `get_tree(self)`): rows whose path starts with `c.path` and
whose depth is at least `c.depth`. -/
def inDescendantsAndSelf (c x : CatNode) : Bool :=
  List.isPrefixOf c.path x.path && decide (c.depth ≤ x.depth)

/-- `Category.set_ancestors_are_public` (lines 113-125): one SQL `UPDATE`
over `self.get_descendants_and_self()` assigning each covered row
`ancestors_are_public = NOT EXISTS (non-public strict ancestor)`, the
subquery reading the table state at update time. -/
def sapFun (table : List CatNode) (c : CatNode) (x : CatNode) : CatNode :=
  if inDescendantsAndSelf c x then
    { x with ancestors_are_public := !hasNonPublicAncestor table x.path x.depth }
  else x

def set_ancestors_are_public (table : List CatNode) (c : CatNode) : List CatNode :=
  table.map (sapFun table c)

/-- Writing a new value of `is_public` on the row with primary key `i`
(the toggle that a `set_public` edit performs before the recomputation). -/
def setIsPublicFun (i : Nat) (v : Bool) (x : CatNode) : CatNode :=
  if x.id == i then { x with is_public := v } else x

def setIsPublic (table : List CatNode) (i : Nat) (v : Bool) : List CatNode :=
  table.map (setIsPublicFun i v)

/-- One `set_public` step of the spec: store the new `is_public` value of
node `i`, then run `set_ancestors_are_public` on that node (fetched back
from the table; a missing id leaves the table as the store wrote it). -/
def togglePublic (table : List CatNode) (i : Nat) (v : Bool) : List CatNode :=
  match (setIsPublic table i v).find? (fun x => x.id == i) with
  | some c => set_ancestors_are_public (setIsPublic table i v) c
  | none => setIsPublic table i v

/-- A sequence of `set_public` toggles, each an (id, new value) pair. -/
def runToggles (table : List CatNode) (ops : List (Nat × Bool)) : List CatNode :=
  ops.foldl (fun t op => togglePublic t op.1 op.2) table

/-- Treebeard `get_root_nodes()`: the rows of depth 1. -/
def get_root_nodes (table : List CatNode) : List CatNode :=
  table.filter (fun x => x.depth == 1)

/-- The loop body of `Category.fix_tree` (lines 130-137) for one fetched
root `node`:

```
if not node.ancestors_are_public:
    node.ancestors_are_public = True
    node.save()
else:
    node.set_ancestors_are_public()
```

`node.save()` writes the fetched instance (with the flag set) back over
the row with its primary key — `saveRootFun` below is that row write. -/
def saveRootFun (node : CatNode) (x : CatNode) : CatNode :=
  if x.id == node.id then { node with ancestors_are_public := true } else x

/-- See the commentary above `saveRootFun`: one iteration of the
`fix_tree` root loop. -/
def fixRoot (table : List CatNode) (node : CatNode) : List CatNode :=
  if !node.ancestors_are_public then
    table.map (saveRootFun node)
  else
    set_ancestors_are_public table node

/-- `Category.fix_tree` (lines 127-137).  `super().fix_tree(destructive)` is
treebeard's structural repair of paths and depths; on a structurally sound
table (the `wfTable` hypothesis of the theorems) it rewrites nothing, so it
is the identity here, and what remains is the loop over the fetched
`get_root_nodes()` snapshot. -/
def fix_tree (table : List CatNode) : List CatNode :=
  (get_root_nodes table).foldl fixRoot table

/-- Structural soundness of the category table: stored depths agree with
path lengths, paths are nonempty, and primary keys and paths each identify
the row (the treebeard and database uniqueness guarantees). -/
def wfTable (t : List CatNode) : Prop :=
  (∀ x ∈ t, x.depth = x.path.length) ∧
  (∀ x ∈ t, x.path ≠ []) ∧
  (∀ a ∈ t, ∀ b ∈ t, a.id = b.id → a = b) ∧
  (∀ a ∈ t, ∀ b ∈ t, a.path = b.path → a = b)

instance (t : List CatNode) : Decidable (wfTable t) := by
  unfold wfTable; infer_instance

/-- The row `x` carries the documented meaning of `ancestors_are_public`
with respect to table `t`: the flag is set exactly when no strict ancestor
(proper path-prefix row at smaller depth) is non-public. -/
def correctNode (t : List CatNode) (x : CatNode) : Prop :=
  x.ancestors_are_public = !hasNonPublicAncestor t x.path x.depth

/-- Every row of the table carries the documented flag value. -/
def correctTable (t : List CatNode) : Prop :=
  ∀ x ∈ t, correctNode t x

instance (t : List CatNode) : Decidable (correctTable t) := by
  unfold correctTable correctNode; infer_instance

/-! ## Full slugs and the URL cache

Source: `src/shop/models.py` lines 70-92 (`get_full_slug`, `full_slug`)
and 164-167 (`get_url_cache_key`); the Django cache backend is the external
key-value store, modelled as an association list written at the front. -/

/-- Treebeard `is_root()`: the row has depth 1. -/
def CatNode.is_root (x : CatNode) : Bool :=
  x.depth == 1

/-- The Django cache: string keys to string values. -/
def SlugCache : Type := List (String × String)

/-- `cache.get(key)`: the most recently set value for the key, if any. -/
def cacheGet (σ : SlugCache) (key : String) : Option String :=
  (List.find? (fun e => e.1 == key) σ).map (fun e => e.2)

/-- `cache.set(key, value)`. -/
def cacheSet (σ : SlugCache) (key : String) (value : String) : SlugCache :=
  (key, value) :: σ

/-- `Category.get_url_cache_key` (lines 164-167):
`'CATEGORY_URL_%s_%s' % (current_locale, self.pk)`. -/
def get_url_cache_key (locale : String) (x : CatNode) : String :=
  "CATEGORY_URL_" ++ locale ++ "_" ++ toString x.id

/-- Treebeard `get_parent()`: the row whose path is `self.path` with the
last segment dropped; `none` for a missing parent. -/
def get_parent (t : List CatNode) (x : CatNode) : Option CatNode :=
  t.find? (fun p => p.path == x.path.dropLast)

/-- `Category.get_full_slug` (lines 70-81) at `parent_slug=None`, the call
made by the `full_slug` property (line 92):

```
if self.is_root():
    return self.slug
cache_key = self.get_url_cache_key()
full_slug = cache.get(cache_key)
if full_slug is None:
    parent_slug = self.get_parent().full_slug
    full_slug = "%s%s%s" % (parent_slug, self._slug_separator, self.slug)
    cache.set(cache_key, full_slug)
return full_slug
```

The recursion through the parent is bounded by the first argument (a fuel
of at least the node's depth reproduces the source, whose recursion walks
one tree level per call); `none` is the `AttributeError` raised when a
non-root node has no parent row, or fuel exhaustion.  The result pairs the
returned string with the cache post-state. -/
def get_full_slug (t : List CatNode) (locale : String) :
    Nat → SlugCache → CatNode → Option (String × SlugCache)
  | 0, _, _ => none
  | fuel + 1, σ, x =>
      if x.is_root then some (x.slug, σ)
      else
        let key := get_url_cache_key locale x
        match cacheGet σ key with
        | some s => some (s, σ)
        | none =>
            match get_parent t x with
            | none => none
            | some parent =>
                match get_full_slug t locale fuel σ parent with
                | none => none
                | some (parent_slug, σ1) =>
                    let full := parent_slug ++ "/" ++ x.slug
                    some (full, cacheSet σ1 key full)

/-- Writing a new slug on the category row with primary key `i` (the
ancestor rename of the staleness scenario). -/
def setSlug (table : List CatNode) (i : Nat) (s : String) : List CatNode :=
  table.map fun x =>
    if x.id == i then { x with slug := s } else x

/-! ## Cart-engine lemmas and claim theorems -/

theorem can_be_edited_of_open (cart : Cart) (h : cart.status = OPEN) :
    cart.can_be_edited = true := by
  unfold Cart.can_be_edited
  rw [h]
  decide

theorem can_be_edited_of_frozen (cart : Cart) (h : cart.status = FROZEN) :
    cart.can_be_edited = false := by
  unfold Cart.can_be_edited
  rw [h]
  decide

theorem filter_map_pres {α : Type} (f : α → α) (pr : α → Bool)
    (hf : ∀ a, pr (f a) = pr a) (L : List α) :
    (L.map f).filter pr = (L.filter pr).map f := by
  induction L with
  | nil => rfl
  | cons a L ih =>
      by_cases h : pr a = true
      · simp [List.filter_cons, h, hf a, ih]
      · simp only [Bool.not_eq_true] at h
        simp [List.filter_cons, h, hf a, ih]

/-- C3.  On a cart whose status is `Frozen`, `add_product` raises
`PermissionDenied` (from the guard in `CartProduct.save`) for every product
and quantity, and the returned post-state is the unchanged input cart: its
set of lines and every quantity are exactly as before the call. -/
theorem addProduct_frozen_permissionDenied (cart : Cart) (p : ProductM) (q : Nat)
    (h : cart.status = FROZEN) :
    cart.add_product p q = (cart, some DjangoError.permissionDenied) := by
  unfold Cart.add_product
  cases hfind : cart.lines.find? (fun l => l.product.id == p.id) <;>
    simp [can_be_edited_of_frozen cart h]

/-- Witness for C3: a concrete frozen cart with one line; the failed add
leaves the line and its quantity in place. -/
theorem addProduct_frozen_permissionDenied_witness :
    Cart.add_product
        { status := "Frozen", lines := [{ product := { id := 7, price := 500 }, quantity := 2 }] }
        { id := 9, price := 300 } 4 =
      ({ status := "Frozen", lines := [{ product := { id := 7, price := 500 }, quantity := 2 }] },
        some DjangoError.permissionDenied) :=
  addProduct_frozen_permissionDenied
    { status := "Frozen", lines := [{ product := { id := 7, price := 500 }, quantity := 2 }] }
    { id := 9, price := 300 } 4 rfl

/-- C10.  On an `Open` cart with no existing line for product `p`,
`add_product cart p q` creates the line with quantity 1, silently ignoring
the quantity argument `q`: `get_or_create` creates the row with the model
default `quantity=1` and the overwrite branch runs only for a pre-existing
row.  The conclusion does not mention `q`. -/
theorem addProduct_create_ignores_quantity (cart : Cart) (p : ProductM) (q : Nat)
    (hopen : cart.status = OPEN)
    (hnew : ∀ l ∈ cart.lines, (l.product.id == p.id) = false) :
    cart.add_product p q =
      ({ cart with lines := cart.lines ++ [{ product := p, quantity := 1 }] }, none) := by
  have hfind : cart.lines.find? (fun l => l.product.id == p.id) = none := by
    rw [List.find?_eq_none]
    intro l hl
    simp [hnew l hl]
  unfold Cart.add_product
  simp [hfind, can_be_edited_of_open cart hopen]

/-- Witness for C10: adding a new product with requested quantity 4 yields a
line of quantity 1. -/
theorem addProduct_create_ignores_quantity_witness :
    Cart.add_product { status := "Open", lines := [] } { id := 3, price := 10 } 4 =
      ({ status := "Open", lines := [{ product := { id := 3, price := 10 }, quantity := 1 }] },
        none) :=
  addProduct_create_ignores_quantity
    { status := "Open", lines := [] } { id := 3, price := 10 } 4 rfl (by intro l hl; cases hl)

/-- Filtering the cart lines for product id `pid` commutes with the
quantity overwrite, which changes no product. -/
theorem overwriteQuantity_filter (pid q : Nat) (ls : List CartProduct) :
    (overwriteQuantity pid q ls).filter (fun l => l.product.id == pid) =
      ((ls.filter fun l => l.product.id == pid).map fun l => { l with quantity := q }) := by
  have hpr : ∀ l : CartProduct,
      (((if l.product.id == pid then ({ l with quantity := q } : CartProduct) else l)).product.id
        == pid) = (l.product.id == pid) := by
    intro l
    by_cases h : (l.product.id == pid) = true
    · rw [if_pos h]
    · rw [if_neg h]
  rw [overwriteQuantity,
    filter_map_pres (fun l => if l.product.id == pid then { l with quantity := q } else l)
      (fun l => l.product.id == pid) hpr ls]
  refine List.map_congr_left ?_
  intro l hl
  rw [if_pos (List.mem_filter.mp hl).2]

/-- Every line matching `pid` carries quantity `q` after the overwrite. -/
theorem overwriteQuantity_keeps (pid q : Nat) (ls : List CartProduct) :
    ∀ l ∈ overwriteQuantity pid q ls, (l.product.id == pid) = true → l.quantity = q := by
  intro l hl hpl
  rcases List.mem_map.mp hl with ⟨l0, _, rfl⟩
  by_cases h : (l0.product.id == pid) = true
  · simp [h]
  · rw [if_neg h] at hpl ⊢
    exact absurd hpl h

theorem find?_none_iff_filter_nil {α : Type} (pred : α → Bool) (ls : List α) :
    ls.find? pred = none ↔ ls.filter pred = [] := by
  rw [List.find?_eq_none, List.filter_eq_nil_iff]

/-- The miss branch of `add_product` on an editable cart: the row is created
with the default quantity 1. -/
theorem add_product_miss (cart : Cart) (p : ProductM) (q : Nat)
    (hce : cart.can_be_edited = true)
    (hfind : cart.lines.find? (fun l => l.product.id == p.id) = none) :
    cart.add_product p q =
      ({ cart with lines := cart.lines ++ [{ product := p, quantity := 1 }] }, none) := by
  unfold Cart.add_product
  simp [hfind, hce]

/-- The hit branch of `add_product` on an editable cart: the existing row's
quantity is overwritten. -/
theorem add_product_hit (cart : Cart) (p : ProductM) (q : Nat)
    (hce : cart.can_be_edited = true)
    (hfind : cart.lines.find? (fun l => l.product.id == p.id) ≠ none) :
    cart.add_product p q =
      ({ cart with lines := overwriteQuantity p.id q cart.lines }, none) := by
  unfold Cart.add_product
  cases h : cart.lines.find? (fun l => l.product.id == p.id) with
  | none => exact absurd h hfind
  | some e => simp [hce]

/-- C2.  On an `Open` cart holding at most one line for product `p` (the
`unique_together ("cart", "product")` constraint, `models.py` line 686),
`add_product p q1` followed by `add_product p q2` succeeds both times and
leaves exactly one line for `p`, whose quantity is `q2`: the second add
overwrites the quantity rather than adding to the first. -/
theorem addProduct_twice_overwrites (cart : Cart) (p : ProductM) (q1 q2 : Nat)
    (hopen : cart.status = OPEN)
    (huniq : (cart.lines.filter fun l => l.product.id == p.id).length ≤ 1) :
    (cart.add_product p q1).2 = none ∧
    ((cart.add_product p q1).1.add_product p q2).2 = none ∧
    (((cart.add_product p q1).1.add_product p q2).1.lines.filter
        fun l => l.product.id == p.id).length = 1 ∧
    ∀ l ∈ ((cart.add_product p q1).1.add_product p q2).1.lines,
      (l.product.id == p.id) = true → l.quantity = q2 := by
  have hce := can_be_edited_of_open cart hopen
  cases hfind : cart.lines.find? (fun l => l.product.id == p.id) with
  | none =>
      have hnil : cart.lines.filter (fun l => l.product.id == p.id) = [] :=
        (find?_none_iff_filter_nil _ _).mp hfind
      rw [add_product_miss cart p q1 hce hfind]
      have hce1 : Cart.can_be_edited
          { cart with lines := cart.lines ++ [{ product := p, quantity := 1 }] } = true :=
        can_be_edited_of_open _ hopen
      have hfilter1 : (cart.lines ++ [({ product := p, quantity := 1 } : CartProduct)]).filter
          (fun l => l.product.id == p.id) = [{ product := p, quantity := 1 }] := by
        rw [List.filter_append, hnil]
        simp
      have hfind1 : (cart.lines ++ [({ product := p, quantity := 1 } : CartProduct)]).find?
          (fun l => l.product.id == p.id) ≠ none := by
        intro hcontra
        rw [find?_none_iff_filter_nil, hfilter1] at hcontra
        exact List.cons_ne_nil _ _ hcontra
      rw [add_product_hit _ p q2 hce1 hfind1]
      refine ⟨rfl, rfl, ?_, ?_⟩
      · show ((overwriteQuantity p.id q2
            (cart.lines ++ [{ product := p, quantity := 1 }])).filter
            (fun l => l.product.id == p.id)).length = 1
        rw [overwriteQuantity_filter, hfilter1]
        rfl
      · intro l hl hpl
        exact overwriteQuantity_keeps p.id q2 _ l hl hpl
  | some e =>
      have he : e ∈ cart.lines := List.mem_of_find?_eq_some hfind
      have hpe : (e.product.id == p.id) = true := by
        have h := List.find?_some hfind
        exact h
      rw [add_product_hit cart p q1 hce (by simp [hfind])]
      have hce1 : Cart.can_be_edited
          { cart with lines := overwriteQuantity p.id q1 cart.lines } = true :=
        can_be_edited_of_open _ hopen
      have hne : cart.lines.filter (fun l => l.product.id == p.id) ≠ [] :=
        List.ne_nil_of_mem (List.mem_filter.mpr ⟨he, hpe⟩)
      have hfilter1 : (overwriteQuantity p.id q1 cart.lines).filter
          (fun l => l.product.id == p.id) =
          ((cart.lines.filter fun l => l.product.id == p.id).map
            fun l => { l with quantity := q1 }) :=
        overwriteQuantity_filter p.id q1 cart.lines
      have hfind1 : (overwriteQuantity p.id q1 cart.lines).find?
          (fun l => l.product.id == p.id) ≠ none := by
        intro hcontra
        rw [find?_none_iff_filter_nil, hfilter1] at hcontra
        exact hne (List.map_eq_nil_iff.mp hcontra)
      rw [add_product_hit _ p q2 hce1 hfind1]
      refine ⟨rfl, rfl, ?_, ?_⟩
      · show ((overwriteQuantity p.id q2
            (overwriteQuantity p.id q1 cart.lines)).filter
            (fun l => l.product.id == p.id)).length = 1
        rw [overwriteQuantity_filter, hfilter1, List.length_map, List.length_map]
        have h1 : 0 < (cart.lines.filter fun l => l.product.id == p.id).length :=
          List.length_pos.mpr hne
        omega
      · intro l hl hpl
        exact overwriteQuantity_keeps p.id q2 _ l hl hpl

/-- Concrete open cart for the C2 witness: one line for product 7. -/
def wCart : Cart :=
  { status := "Open", lines := [{ product := { id := 7, price := 100 }, quantity := 5 }] }

/-- Concrete product for the C2 witness. -/
def wProd : ProductM := { id := 7, price := 100 }

/-- Witness for C2: on `wCart`, adding quantity 2 then quantity 3 ends with
the single line for product 7 at quantity 3. -/
theorem addProduct_twice_overwrites_witness :
    wCart.status = OPEN ∧
    (wCart.lines.filter fun l => l.product.id == wProd.id).length ≤ 1 ∧
    ((wCart.add_product wProd 2).2 = none ∧
      ((wCart.add_product wProd 2).1.add_product wProd 3).2 = none ∧
      (((wCart.add_product wProd 2).1.add_product wProd 3).1.lines.filter
          fun l => l.product.id == wProd.id).length = 1 ∧
      ∀ l ∈ ((wCart.add_product wProd 2).1.add_product wProd 3).1.lines,
        (l.product.id == wProd.id) = true → l.quantity = 3) :=
  ⟨rfl, by decide, addProduct_twice_overwrites wCart wProd 2 3 rfl (by decide)⟩

/-- C5.  `total_price` is the sum over the cart's current lines of the
line's product price times the line's quantity; the spec's worked example
(price 500 at quantity 2 plus price 300 at quantity 1 gives 1300) and the
empty cart (total 0) hold. -/
theorem totalPrice_spec :
    (∀ cart : Cart,
      cart.total_price = (cart.lines.map fun l => l.product.price * l.quantity).sum) ∧
    Cart.total_price
      { status := "Open",
        lines := [{ product := { id := 1, price := 500 }, quantity := 2 },
                  { product := { id := 2, price := 300 }, quantity := 1 }] } = 1300 ∧
    Cart.total_price { status := "Open", lines := [] } = 0 := by
  refine ⟨fun cart => rfl, rfl, rfl⟩

/-- C7 (code bug).  `Cart.flush` never reaches either documented behavior:
its first step evaluates `self.FROZEN`, which no attribute of the `Cart`
class provides, so every call raises `AttributeError` — the lines are never
deleted for an editable cart, and a frozen cart gets `AttributeError`, not
`PermissionDenied`.  The post-state is always the unchanged cart. -/
theorem flush_always_attributeError :
    (∀ cart : Cart, cart.flush = (cart, some DjangoError.attributeError)) ∧
    Cart.flush
        { status := "Open", lines := [{ product := { id := 1, price := 500 }, quantity := 2 }] } =
      ({ status := "Open", lines := [{ product := { id := 1, price := 500 }, quantity := 2 }] },
        some DjangoError.attributeError) ∧
    Cart.flush { status := "Frozen", lines := [] } =
      ({ status := "Frozen", lines := [] }, some DjangoError.attributeError) := by
  refine ⟨fun cart => rfl, rfl, rfl⟩

/-- C4.  In `cache_payment`, a capture failure (the gateway's
`BadRequestError`) is swallowed by the bare `except ... pass`: the Order is
still created for the user's cart, the cart status is still set to Frozen,
and the response is the same `redirect('home:home')` as on success — the
failure path is indistinguishable from the success path. -/
theorem cachePayment_swallows_failure :
    ∀ (st : CheckoutState) (user : Nat),
      cache_payment st user CaptureResult.badRequestError =
        cache_payment st user CaptureResult.success ∧
      (cache_payment st user CaptureResult.badRequestError).2 = HttpOutcome.redirectHome ∧
      (cache_payment st user CaptureResult.badRequestError).1.cartStatus = FROZEN ∧
      (cache_payment st user CaptureResult.badRequestError).1.orders =
        st.orders ++ [{ customer := user, cartId := st.cartId }] := by
  intro st user
  exact ⟨rfl, rfl, rfl, rfl⟩

/-- One `get_or_create` call keeps the per-(owner, status) uniqueness
invariant of the cart table. -/
theorem get_or_create_inv (s : CartStore)
    (hinv : ∀ o st, (s.rows.filter fun c => c.owner == o && c.status == st).length ≤ 1)
    (o1 : Nat) (st1 : String) :
    ∀ r, s.get_or_create o1 st1 = some r →
      ∀ o st, (r.2.rows.filter fun c => c.owner == o && c.status == st).length ≤ 1 := by
  intro r hr o st
  unfold CartStore.get_or_create at hr
  cases hmatch : s.matching o1 st1 with
  | nil =>
      rw [hmatch] at hr
      cases hr
      simp only [List.filter_append]
      by_cases hm : ((o1 == o) && (st1 == st)) = true
      · have ho : o1 = o := by
          have := (Bool.and_eq_true _ _).mp hm
          exact eq_of_beq this.1
        have hst : st1 = st := by
          have := (Bool.and_eq_true _ _).mp hm
          exact eq_of_beq this.2
        have hempty : (s.rows.filter fun c => c.owner == o && c.status == st) = [] := by
          rw [← ho, ← hst]
          exact hmatch
        rw [hempty]
        simp [hm]
      · have hkeep : (List.filter (fun c => c.owner == o && c.status == st)
            [({ id := s.next_id, owner := o1, status := st1 } : CartRow)]) = [] := by
          simp only [List.filter, hm]
        rw [hkeep]
        simpa using hinv o st
  | cons c rest =>
      cases rest with
      | nil =>
          rw [hmatch] at hr
          cases hr
          exact hinv o st
      | cons c2 rest2 =>
          rw [hmatch] at hr
          cases hr

/-- Any sequence of `get_or_create` calls keeps the per-(owner, status)
uniqueness invariant of the cart table. -/
theorem runCalls_inv : ∀ (calls : List (Nat × String)) (s : CartStore),
    (∀ o st, (s.rows.filter fun c => c.owner == o && c.status == st).length ≤ 1) →
    ∀ o st, ((s.runCalls calls).rows.filter fun c => c.owner == o && c.status == st).length ≤ 1 := by
  intro calls
  induction calls with
  | nil => intro s hinv; exact hinv
  | cons call rest ih =>
      intro s hinv
      have hstep : ∀ o st, (((match s.get_or_create call.1 call.2 with
          | some r => r.2
          | none => s) : CartStore).rows.filter
          fun c => c.owner == o && c.status == st).length ≤ 1 := by
        cases hc : s.get_or_create call.1 call.2 with
        | none => simpa using hinv
        | some r =>
            have h := get_or_create_inv s hinv call.1 call.2 r hc
            simpa using h
      have hrun : CartStore.runCalls s (call :: rest) =
          CartStore.runCalls (match s.get_or_create call.1 call.2 with
            | some r => r.2
            | none => s) rest := by
        unfold CartStore.runCalls
        rfl
      rw [hrun]
      exact ih _ hstep

/-- C6.  Under the per-(owner, status) uniqueness invariant, the open-cart
lookup `get_or_create(owner=U, status=Open)` is idempotent: the first call
returns a cart id and a table state, and repeating the call on that state
returns the very same id and leaves the table untouched; moreover the
invariant — in particular "at most one Open cart owned by U" — is preserved
by every sequence of `get_or_create` calls. -/
theorem getOrCreate_idempotent (s : CartStore) (U : Nat)
    (hinv : ∀ o st, (s.rows.filter fun c => c.owner == o && c.status == st).length ≤ 1) :
    (∃ i s1, s.get_or_create U OPEN = some (i, s1) ∧
      s1.get_or_create U OPEN = some (i, s1) ∧
      (s1.rows.filter fun c => c.owner == U && c.status == OPEN).length ≤ 1) ∧
    ∀ calls : List (Nat × String), ∀ o st,
      ((s.runCalls calls).rows.filter fun c => c.owner == o && c.status == st).length ≤ 1 := by
  constructor
  · cases hmatch : s.matching U OPEN with
    | nil =>
        refine ⟨s.next_id,
          { rows := s.rows ++ [{ id := s.next_id, owner := U, status := OPEN }],
            next_id := s.next_id + 1 }, ?_, ?_, ?_⟩
        · unfold CartStore.get_or_create
          rw [hmatch]
        · have hmatch2 : CartStore.matching
              { rows := s.rows ++ [{ id := s.next_id, owner := U, status := OPEN }],
                next_id := s.next_id + 1 } U OPEN =
              [{ id := s.next_id, owner := U, status := OPEN }] := by
            unfold CartStore.matching at hmatch ⊢
            simp only [List.filter_append, hmatch]
            simp
          unfold CartStore.get_or_create
          rw [hmatch2]
        · have h := get_or_create_inv s hinv U OPEN _ (by
            unfold CartStore.get_or_create
            rw [hmatch])
          exact h U OPEN
    | cons c rest =>
        cases rest with
        | nil =>
            refine ⟨c.id, s, ?_, ?_, ?_⟩
            · unfold CartStore.get_or_create
              rw [hmatch]
            · unfold CartStore.get_or_create
              rw [hmatch]
            · exact hinv U OPEN
        | cons c2 rest2 =>
            exfalso
            have h := hinv U OPEN
            unfold CartStore.matching at hmatch
            rw [hmatch] at h
            simp at h
  · exact fun calls => runCalls_inv calls s hinv

/-! ## Category-tree lemmas: the visibility invariant (C1) -/

theorem any_congr_mem {α : Type} (l : List α) (p q : α → Bool)
    (h : ∀ a ∈ l, p a = q a) : l.any p = l.any q := by
  induction l with
  | nil => rfl
  | cons a l ih =>
      rw [List.any_cons, List.any_cons, h a (List.mem_cons_self a l),
        ih fun b hb => h b (List.mem_cons_of_mem a hb)]

/-- The visibility subquery ignores `ancestors_are_public` (and `slug`): a
map that keeps `is_public`, `path` and `depth` of every row keeps the
subquery's value. -/
theorem hNPA_map_vis (t : List CatNode) (g : CatNode → CatNode)
    (hg : ∀ x ∈ t, (g x).is_public = x.is_public ∧ (g x).path = x.path ∧ (g x).depth = x.depth)
    (p : List Nat) (d : Nat) :
    hasNonPublicAncestor (t.map g) p d = hasNonPublicAncestor t p d := by
  unfold hasNonPublicAncestor
  rw [List.any_map]
  refine any_congr_mem _ _ _ ?_
  intro a ha
  rcases hg a ha with ⟨h1, h2, h3⟩
  simp only [Function.comp, h1, h2, h3]

/-- Writing `is_public` on row `i` keeps the subquery value at every target
whose strict-ancestor set does not contain row `i`. -/
theorem hNPA_setIsPublic (t : List CatNode) (i : Nat) (v : Bool) (p : List Nat) (d : Nat)
    (hno : ∀ a ∈ t, a.id = i → ¬(List.isPrefixOf a.path p = true ∧ a.depth < d)) :
    hasNonPublicAncestor (setIsPublic t i v) p d = hasNonPublicAncestor t p d := by
  unfold setIsPublic hasNonPublicAncestor
  rw [List.any_map]
  refine any_congr_mem _ _ _ ?_
  intro a ha
  by_cases hid : (a.id == i) = true
  · have hia : a.id = i := eq_of_beq hid
    have hcontra := hno a ha hia
    have hfa : ∀ b : Bool, (!b && List.isPrefixOf a.path p && decide (a.depth < d)) = false := by
      intro b
      cases hpp : List.isPrefixOf a.path p
      · simp
      · have hnd : ¬ a.depth < d := fun hd => hcontra ⟨hpp, hd⟩
        simp [hnd]
    have hsf : setIsPublicFun i v a = { a with is_public := v } := by
      unfold setIsPublicFun
      rw [if_pos hid]
    show (!(setIsPublicFun i v a).is_public && (setIsPublicFun i v a).path.isPrefixOf p &&
        decide ((setIsPublicFun i v a).depth < d)) =
      (!a.is_public && a.path.isPrefixOf p && decide (a.depth < d))
    rw [hsf]
    show (!v && a.path.isPrefixOf p && decide (a.depth < d)) =
      (!a.is_public && a.path.isPrefixOf p && decide (a.depth < d))
    rw [hfa v]
    exact (hfa a.is_public).symm
  · have hsf : setIsPublicFun i v a = a := by
      unfold setIsPublicFun
      rw [if_neg hid]
    show (!(setIsPublicFun i v a).is_public && (setIsPublicFun i v a).path.isPrefixOf p &&
        decide ((setIsPublicFun i v a).depth < d)) =
      (!a.is_public && a.path.isPrefixOf p && decide (a.depth < d))
    rw [hsf]

/-- A map that keeps `id`, `path` and `depth` of every row keeps structural
soundness. -/
theorem wf_map (t : List CatNode) (g : CatNode → CatNode)
    (hg : ∀ x, (g x).id = x.id ∧ (g x).path = x.path ∧ (g x).depth = x.depth)
    (hwf : wfTable t) : wfTable (t.map g) := by
  obtain ⟨h1, h2, h3, h4⟩ := hwf
  refine ⟨?_, ?_, ?_, ?_⟩
  · intro y hy
    rcases List.mem_map.mp hy with ⟨x, hx, rfl⟩
    rw [(hg x).2.2, (hg x).2.1]
    exact h1 x hx
  · intro y hy
    rcases List.mem_map.mp hy with ⟨x, hx, rfl⟩
    rw [(hg x).2.1]
    exact h2 x hx
  · intro a ha b hb hab
    rcases List.mem_map.mp ha with ⟨x, hx, rfl⟩
    rcases List.mem_map.mp hb with ⟨y, hy, rfl⟩
    rw [(hg x).1, (hg y).1] at hab
    rw [h3 x hx y hy hab]
  · intro a ha b hb hab
    rcases List.mem_map.mp ha with ⟨x, hx, rfl⟩
    rcases List.mem_map.mp hb with ⟨y, hy, rfl⟩
    rw [(hg x).2.1, (hg y).2.1] at hab
    rw [h4 x hx y hy hab]

theorem setIsPublic_fields (i : Nat) (v : Bool) :
    ∀ x : CatNode,
      ((setIsPublicFun i v x).id = x.id ∧ (setIsPublicFun i v x).path = x.path ∧
        (setIsPublicFun i v x).depth = x.depth) ∧
      (setIsPublicFun i v x).ancestors_are_public = x.ancestors_are_public := by
  intro x
  unfold setIsPublicFun
  by_cases h : (x.id == i) = true
  · rw [if_pos h]
    exact ⟨⟨rfl, rfl, rfl⟩, rfl⟩
  · rw [if_neg h]
    exact ⟨⟨rfl, rfl, rfl⟩, rfl⟩

theorem sapFun_fields (t : List CatNode) (c : CatNode) :
    ∀ x : CatNode,
      (sapFun t c x).id = x.id ∧ (sapFun t c x).path = x.path ∧
      (sapFun t c x).depth = x.depth ∧ (sapFun t c x).is_public = x.is_public := by
  intro x
  unfold sapFun
  by_cases h : inDescendantsAndSelf c x = true
  · rw [if_pos h]
    exact ⟨rfl, rfl, rfl, rfl⟩
  · rw [if_neg h]
    exact ⟨rfl, rfl, rfl, rfl⟩

theorem wf_togglePublic (t : List CatNode) (i : Nat) (v : Bool) (hwf : wfTable t) :
    wfTable (togglePublic t i v) := by
  have hwf1 : wfTable (setIsPublic t i v) :=
    wf_map t _ (fun x => (setIsPublic_fields i v x).1) hwf
  unfold togglePublic
  cases hfind : (setIsPublic t i v).find? (fun x => x.id == i) with
  | none => exact hwf1
  | some c =>
      exact wf_map _ _
        (fun x => ⟨(sapFun_fields _ c x).1, (sapFun_fields _ c x).2.1, (sapFun_fields _ c x).2.2.1⟩)
        hwf1

/-- One `set_public` toggle (store plus subtree recomputation) re-establishes
the visibility invariant over the whole table. -/
theorem correct_togglePublic (t : List CatNode) (i : Nat) (v : Bool)
    (hwf : wfTable t) (hc : correctTable t) : correctTable (togglePublic t i v) := by
  have hwf1 : wfTable (setIsPublic t i v) :=
    wf_map t _ (fun x => (setIsPublic_fields i v x).1) hwf
  unfold togglePublic
  cases hfind : (setIsPublic t i v).find? (fun x => x.id == i) with
  | none =>
      have hid : setIsPublic t i v = t := by
        unfold setIsPublic
        conv => rhs; rw [← List.map_id t]
        refine List.map_congr_left ?_
        intro x hx
        have hmem : setIsPublicFun i v x ∈ setIsPublic t i v := List.mem_map_of_mem _ hx
        have hnp := List.find?_eq_none.mp hfind _ hmem
        by_cases h : (x.id == i) = true
        · exfalso
          apply hnp
          have : (setIsPublicFun i v x).id = x.id := (setIsPublic_fields i v x).1.1
          rw [this]
          exact h
        · show setIsPublicFun i v x = x
          unfold setIsPublicFun
          rw [if_neg h]
      rw [hid]
      exact hc
  | some c =>
      have hcmem : c ∈ setIsPublic t i v := List.mem_of_find?_eq_some hfind
      have hcid : (c.id == i) = true := by
        have h := List.find?_some hfind
        exact h
      intro y hy
      rcases List.mem_map.mp hy with ⟨x1, hx1, rfl⟩
      have hvis2 : ∀ p d,
          hasNonPublicAncestor (set_ancestors_are_public (setIsPublic t i v) c) p d =
            hasNonPublicAncestor (setIsPublic t i v) p d := by
        intro p d
        refine hNPA_map_vis _ _ ?_ p d
        intro x hx
        exact ⟨(sapFun_fields _ c x).2.2.2, (sapFun_fields _ c x).2.1, (sapFun_fields _ c x).2.2.1⟩
      unfold correctNode
      by_cases hin : inDescendantsAndSelf c x1 = true
      · have hy1 : sapFun (setIsPublic t i v) c x1 =
            { x1 with ancestors_are_public :=
                !hasNonPublicAncestor (setIsPublic t i v) x1.path x1.depth } := by
          unfold sapFun
          rw [if_pos hin]
        rw [hy1]
        show (!hasNonPublicAncestor (setIsPublic t i v) x1.path x1.depth) =
          !hasNonPublicAncestor (set_ancestors_are_public (setIsPublic t i v) c) x1.path x1.depth
        rw [hvis2]
      · have hy1 : sapFun (setIsPublic t i v) c x1 = x1 := by
          unfold sapFun
          rw [if_neg hin]
        rw [hy1]
        rcases List.mem_map.mp hx1 with ⟨x0, hx0, hgx0⟩
        by_cases hid0 : (x0.id == i) = true
        · exfalso
          have hx1id : (x1.id == i) = true := by
            rw [← hgx0, (setIsPublic_fields i v x0).1.1]
            exact hid0
          have hceq : c = x1 :=
            hwf1.2.2.1 c hcmem x1 hx1 (by rw [eq_of_beq hcid, eq_of_beq hx1id])
          apply hin
          rw [← hceq]
          unfold inDescendantsAndSelf
          simp [List.isPrefixOf_iff_prefix]
        · have hx1x0 : x1 = x0 := by
            rw [← hgx0]
            unfold setIsPublicFun
            rw [if_neg hid0]
          subst hx1x0
          have hno : ∀ a ∈ t, a.id = i →
              ¬(List.isPrefixOf a.path x1.path = true ∧ a.depth < x1.depth) := by
            intro a ha haid hcontra
            have hamem : setIsPublicFun i v a ∈ setIsPublic t i v := List.mem_map_of_mem _ ha
            have haid2 : ((setIsPublicFun i v a).id == i) = true := by
              rw [(setIsPublic_fields i v a).1.1]
              exact beq_iff_eq.mpr haid
            have hceq : c = setIsPublicFun i v a :=
              hwf1.2.2.1 c hcmem _ hamem (by rw [eq_of_beq hcid, eq_of_beq haid2])
            apply hin
            unfold inDescendantsAndSelf
            rw [hceq, (setIsPublic_fields i v a).1.2.1, (setIsPublic_fields i v a).1.2.2]
            rw [hcontra.1]
            simp [Nat.le_of_lt hcontra.2]
          rw [hvis2, hNPA_setIsPublic t i v x1.path x1.depth hno]
          exact hc x1 hx0

theorem wf_runToggles (t : List CatNode) (ops : List (Nat × Bool)) (hwf : wfTable t) :
    wfTable (runToggles t ops) := by
  induction ops generalizing t with
  | nil => exact hwf
  | cons op rest ih =>
      have h1 : wfTable (togglePublic t op.1 op.2) := wf_togglePublic t op.1 op.2 hwf
      exact ih (togglePublic t op.1 op.2) h1

theorem correct_runToggles (t : List CatNode) (ops : List (Nat × Bool))
    (hwf : wfTable t) (hc : correctTable t) : correctTable (runToggles t ops) := by
  induction ops generalizing t with
  | nil => exact hc
  | cons op rest ih =>
      exact ih (togglePublic t op.1 op.2) (wf_togglePublic t op.1 op.2 hwf)
        (correct_togglePublic t op.1 op.2 hwf hc)

/-- In a structurally sound table, a depth-1 (root) row has no strict
ancestor, so the visibility subquery is false at it. -/
theorem hNPA_root_false (t : List CatNode) (hwf : wfTable t) (p : List Nat) :
    hasNonPublicAncestor t p 1 = false := by
  unfold hasNonPublicAncestor
  rw [List.any_eq_false]
  intro a ha hpred
  have hlen : a.depth = a.path.length := hwf.1 a ha
  have hne : a.path ≠ [] := hwf.2.1 a ha
  have hlt : a.depth < 1 := by
    have h1 := (Bool.and_eq_true _ _).mp hpred
    exact of_decide_eq_true h1.2
  have hpos : 0 < a.path.length := List.length_pos.mpr hne
  omega

theorem roots_true_of_correct (t : List CatNode) (hwf : wfTable t) (hc : correctTable t) :
    ∀ x ∈ t, x.depth = 1 → x.ancestors_are_public = true := by
  intro x hx hd
  have h := hc x hx
  unfold correctNode at h
  rw [hd, hNPA_root_false t hwf x.path] at h
  simpa using h

/-- C1.  Starting from a structurally sound category table whose
`ancestors_are_public` flags are consistent, after any sequence of
`is_public` toggles each followed by `set_ancestors_are_public` on the
toggled node, every row (in particular every descendant of each toggled
node) has `ancestors_are_public = true` exactly when no strict ancestor —
a row whose path is a proper prefix of its path at strictly smaller
depth — has `is_public = false`; and every root row has
`ancestors_are_public = true`. -/
theorem categoryVisibilityInvariant (t : List CatNode) (ops : List (Nat × Bool))
    (hwf : wfTable t) (hc : correctTable t) :
    correctTable (runToggles t ops) ∧
    ∀ x ∈ runToggles t ops, x.depth = 1 → x.ancestors_are_public = true := by
  have hwf2 := wf_runToggles t ops hwf
  have hc2 := correct_runToggles t ops hwf hc
  exact ⟨hc2, roots_true_of_correct _ hwf2 hc2⟩

/-- Concrete three-level category chain for the C1 witness (the spec's
end-to-end example: Clothing, Shoes and a grandchild, all public). -/
def exCat : List CatNode :=
  [{ id := 0, path := [1], depth := 1, slug := "clothing", is_public := true,
     ancestors_are_public := true },
   { id := 1, path := [1, 1], depth := 2, slug := "shoes", is_public := true,
     ancestors_are_public := true },
   { id := 2, path := [1, 1, 1], depth := 3, slug := "boots", is_public := true,
     ancestors_are_public := true }]

/-- The spec's end-to-end toggle sequence: make the root non-public, then
public again. -/
def exOps : List (Nat × Bool) := [(0, false), (0, true)]

/-- Witness for C1 at the concrete chain and toggle sequence. -/
theorem categoryVisibilityInvariant_witness :
    wfTable exCat ∧ correctTable exCat ∧
    (correctTable (runToggles exCat exOps) ∧
      ∀ x ∈ runToggles exCat exOps, x.depth = 1 → x.ancestors_are_public = true) :=
  ⟨by decide, by decide, categoryVisibilityInvariant exCat exOps (by decide) (by decide)⟩


/-! ## Category-tree lemmas: `fix_tree` (C8)

During `fix_tree`, every table write (the root-row save and the subtree
`UPDATE`) changes only `ancestors_are_public`; the fold is therefore
tracked through maps that preserve `id`, `path`, `depth` and `is_public`
of every row of the original table. -/

def aapPresOn (t : List CatNode) (g : CatNode → CatNode) : Prop :=
  ∀ x ∈ t, (g x).id = x.id ∧ (g x).path = x.path ∧ (g x).depth = x.depth ∧
    (g x).is_public = x.is_public

theorem aapPresOn_id (t : List CatNode) : aapPresOn t id ∧ t = t.map id := by
  constructor
  · intro x _
    exact ⟨rfl, rfl, rfl, rfl⟩
  · rw [List.map_id]

theorem saveRootFun_hit (r x : CatNode) (h : (x.id == r.id) = true) :
    saveRootFun r x = { r with ancestors_are_public := true } := by
  unfold saveRootFun
  rw [if_pos h]

theorem saveRootFun_miss (r x : CatNode) (h : ¬(x.id == r.id) = true) :
    saveRootFun r x = x := by
  unfold saveRootFun
  rw [if_neg h]

/-- One `fix_tree` iteration maps a tracked state to a tracked state. -/
theorem fixRoot_corr (t s : List CatNode) (r : CatNode) (hwf : wfTable t)
    (hs : ∃ g, aapPresOn t g ∧ s = t.map g) (hr : r ∈ t) :
    ∃ g, aapPresOn t g ∧ fixRoot s r = t.map g := by
  obtain ⟨g, hg, rfl⟩ := hs
  unfold fixRoot
  by_cases hb : (!r.ancestors_are_public) = true
  · rw [if_pos hb]
    refine ⟨saveRootFun r ∘ g, ?_, ?_⟩
    · intro x hx
      rcases hg x hx with ⟨h1, h2, h3, h4⟩
      by_cases hxi : ((g x).id == r.id) = true
      · have hxid : x.id = r.id := by rw [← h1]; exact eq_of_beq hxi
        have hxr : x = r := hwf.2.2.1 x hx r hr hxid
        show (saveRootFun r (g x)).id = x.id ∧ (saveRootFun r (g x)).path = x.path ∧
          (saveRootFun r (g x)).depth = x.depth ∧ (saveRootFun r (g x)).is_public = x.is_public
        rw [saveRootFun_hit r (g x) hxi, hxr]
        exact ⟨rfl, rfl, rfl, rfl⟩
      · show (saveRootFun r (g x)).id = x.id ∧ (saveRootFun r (g x)).path = x.path ∧
          (saveRootFun r (g x)).depth = x.depth ∧ (saveRootFun r (g x)).is_public = x.is_public
        rw [saveRootFun_miss r (g x) hxi]
        exact ⟨h1, h2, h3, h4⟩
    · rw [List.map_map]
  · rw [if_neg hb]
    refine ⟨sapFun (t.map g) r ∘ g, ?_, ?_⟩
    · intro x hx
      rcases hg x hx with ⟨h1, h2, h3, h4⟩
      have hf := sapFun_fields (t.map g) r (g x)
      exact ⟨hf.1.trans h1, hf.2.1.trans h2, hf.2.2.1.trans h3, hf.2.2.2.trans h4⟩
    · unfold set_ancestors_are_public
      rw [List.map_map]

/-- Rows that no root of the list `rs` touches (their id differs from every
root's id and they sit in none of those roots' subtrees) keep a
field-indexed `ancestors_are_public` value through the whole fold. -/
theorem foldl_fixRoot_keeps (t : List CatNode) (hwf : wfTable t)
    (sel : List Nat → Nat → Nat → Prop) (f : List Nat → Nat → Bool) :
    ∀ (rs s : List CatNode),
      (∃ g, aapPresOn t g ∧ s = t.map g) →
      (∀ r2 ∈ rs, ∀ x ∈ t, sel x.path x.depth x.id →
          ¬(x.id = r2.id) ∧ ¬(List.isPrefixOf r2.path x.path = true ∧ r2.depth ≤ x.depth)) →
      (∀ y ∈ s, sel y.path y.depth y.id → y.ancestors_are_public = f y.path y.depth) →
      (∀ r2 ∈ rs, r2 ∈ t) →
      ∀ y ∈ rs.foldl fixRoot s, sel y.path y.depth y.id →
        y.ancestors_are_public = f y.path y.depth := by
  intro rs
  induction rs with
  | nil =>
      intro s _ _ hbase _ y hy
      exact hbase y hy
  | cons r2 rest ih =>
      intro s hs hno hbase hmem
      have hr2t : r2 ∈ t := hmem r2 (List.mem_cons_self r2 rest)
      have hs1 : ∃ g1, aapPresOn t g1 ∧ fixRoot s r2 = t.map g1 :=
        fixRoot_corr t s r2 hwf hs hr2t
      have hbase1 : ∀ y1 ∈ fixRoot s r2, sel y1.path y1.depth y1.id →
          y1.ancestors_are_public = f y1.path y1.depth := by
        obtain ⟨g, hg, rfl⟩ := hs
        intro y1 hy1 hsel1
        unfold fixRoot at hy1
        by_cases hb : (!r2.ancestors_are_public) = true
        · rw [if_pos hb] at hy1
          rcases List.mem_map.mp hy1 with ⟨y0, hy0, rfl⟩
          by_cases hxi : (y0.id == r2.id) = true
          · exfalso
            rw [saveRootFun_hit r2 y0 hxi] at hsel1
            have := (hno r2 (List.mem_cons_self r2 rest) r2 hr2t hsel1).1
            exact this rfl
          · rw [saveRootFun_miss r2 y0 hxi] at hsel1 ⊢
            exact hbase y0 hy0 hsel1
        · rw [if_neg hb] at hy1
          unfold set_ancestors_are_public at hy1
          rcases List.mem_map.mp hy1 with ⟨y0, hy0, rfl⟩
          by_cases hin : inDescendantsAndSelf r2 y0 = true
          · exfalso
            have hy0fields : (sapFun (t.map g) r2 y0).path = y0.path ∧
                (sapFun (t.map g) r2 y0).depth = y0.depth ∧
                (sapFun (t.map g) r2 y0).id = y0.id :=
              ⟨(sapFun_fields _ r2 y0).2.1, (sapFun_fields _ r2 y0).2.2.1,
                (sapFun_fields _ r2 y0).1⟩
            rw [hy0fields.1, hy0fields.2.1, hy0fields.2.2] at hsel1
            rcases List.mem_map.mp hy0 with ⟨x0, hx0, rfl⟩
            rcases hg x0 hx0 with ⟨k1, k2, k3, k4⟩
            rw [k2, k3, k1] at hsel1
            have hnosub := (hno r2 (List.mem_cons_self r2 rest) x0 hx0 hsel1).2
            apply hnosub
            unfold inDescendantsAndSelf at hin
            rw [k2, k3] at hin
            constructor
            · exact ((Bool.and_eq_true _ _).mp hin).1
            · exact of_decide_eq_true ((Bool.and_eq_true _ _).mp hin).2
          · have hkeep : sapFun (t.map g) r2 y0 = y0 := by
              unfold sapFun
              rw [if_neg hin]
            rw [hkeep] at hsel1 ⊢
            exact hbase y0 hy0 hsel1
      exact ih (fixRoot s r2)
        hs1
        (fun r3 h3 => hno r3 (List.mem_cons_of_mem r2 h3))
        hbase1
        (fun r3 h3 => hmem r3 (List.mem_cons_of_mem r2 h3))

theorem hNPA_corr (t : List CatNode) (g : CatNode → CatNode) (hg : aapPresOn t g) :
    ∀ p d, hasNonPublicAncestor (t.map g) p d = hasNonPublicAncestor t p d := by
  intro p d
  exact hNPA_map_vis t g
    (fun x hx => ⟨(hg x hx).2.2.2, (hg x hx).2.1, (hg x hx).2.2.1⟩) p d

/-- After its own `fix_tree` iteration, a fetched root's row carries
`ancestors_are_public = true` (either written directly or recomputed as
the vacuous strict-ancestor test). -/
theorem fixRoot_root_true (t s : List CatNode) (r : CatNode) (hwf : wfTable t)
    (hs : ∃ g, aapPresOn t g ∧ s = t.map g) (hr : r ∈ t) (hd : r.depth = 1) :
    ∀ y ∈ fixRoot s r, y.id = r.id → y.ancestors_are_public = true := by
  obtain ⟨g, hg, rfl⟩ := hs
  intro y hy hid
  unfold fixRoot at hy
  by_cases hb : (!r.ancestors_are_public) = true
  · rw [if_pos hb] at hy
    rcases List.mem_map.mp hy with ⟨y0, hy0, rfl⟩
    by_cases hxi : (y0.id == r.id) = true
    · rw [saveRootFun_hit r y0 hxi]
    · exfalso
      rw [saveRootFun_miss r y0 hxi] at hid
      exact hxi (beq_iff_eq.mpr hid)
  · rw [if_neg hb] at hy
    unfold set_ancestors_are_public at hy
    rcases List.mem_map.mp hy with ⟨y0, hy0, rfl⟩
    have hid0 : y0.id = r.id := by
      rw [← (sapFun_fields (t.map g) r y0).1]
      exact hid
    rcases List.mem_map.mp hy0 with ⟨x0, hx0, rfl⟩
    rcases hg x0 hx0 with ⟨k1, k2, k3, k4⟩
    have hx0r : x0 = r := hwf.2.2.1 x0 hx0 r hr (by rw [← k1]; exact hid0)
    have hin : inDescendantsAndSelf r (g x0) = true := by
      unfold inDescendantsAndSelf
      rw [k2, k3, hx0r]
      simp [List.isPrefixOf_iff_prefix]
    have hsap : sapFun (t.map g) r (g x0) =
        { g x0 with ancestors_are_public :=
            !hasNonPublicAncestor (t.map g) (g x0).path (g x0).depth } := by
      unfold sapFun
      rw [if_pos hin]
    rw [hsap]
    show (!hasNonPublicAncestor (t.map g) (g x0).path (g x0).depth) = true
    rw [hNPA_corr t g hg, k3, hx0r, hd, hNPA_root_false t hwf]
    rfl

/-- The `fix_tree` iteration of a fetched root whose stored flag was already
true recomputes its whole subtree against the (unchanged) visibility data. -/
theorem fixRoot_subtree_correct (t s : List CatNode) (r : CatNode) (hwf : wfTable t)
    (hs : ∃ g, aapPresOn t g ∧ s = t.map g) (hr : r ∈ t) (hd : r.depth = 1)
    (haap : r.ancestors_are_public = true) :
    ∀ y ∈ fixRoot s r, List.isPrefixOf r.path y.path = true →
      y.ancestors_are_public = !hasNonPublicAncestor t y.path y.depth := by
  obtain ⟨g, hg, rfl⟩ := hs
  intro y hy hpre
  unfold fixRoot at hy
  have hb : ¬(!r.ancestors_are_public) = true := by
    rw [haap]
    simp
  rw [if_neg hb] at hy
  unfold set_ancestors_are_public at hy
  rcases List.mem_map.mp hy with ⟨y0, hy0, rfl⟩
  rcases List.mem_map.mp hy0 with ⟨x0, hx0, rfl⟩
  rcases hg x0 hx0 with ⟨k1, k2, k3, k4⟩
  rw [(sapFun_fields (t.map g) r (g x0)).2.1] at hpre
  have hdle : r.depth ≤ (g x0).depth := by
    rw [k3, hd]
    have h1 := hwf.1 x0 hx0
    have h2 := hwf.2.1 x0 hx0
    have h3 : 0 < x0.path.length := List.length_pos.mpr h2
    omega
  have hin : inDescendantsAndSelf r (g x0) = true := by
    unfold inDescendantsAndSelf
    rw [hpre]
    simp [hdle]
  have hsap : sapFun (t.map g) r (g x0) =
      { g x0 with ancestors_are_public :=
          !hasNonPublicAncestor (t.map g) (g x0).path (g x0).depth } := by
    unfold sapFun
    rw [if_pos hin]
  rw [hsap]
  show (!hasNonPublicAncestor (t.map g) (g x0).path (g x0).depth) =
    !hasNonPublicAncestor t (g x0).path (g x0).depth
  rw [hNPA_corr t g hg]

/-- In a sound table, a root whose path the other root's path starts with is
that other root. -/
theorem prefix_root_eq (t : List CatNode) (hwf : wfTable t) (r r2 : CatNode)
    (hr : r ∈ t) (hr2 : r2 ∈ t) (hd : r.depth = 1) (hd2 : r2.depth = 1)
    (hp : List.isPrefixOf r2.path r.path = true) : r2 = r := by
  have h2 : r2.path <+: r.path := List.isPrefixOf_iff_prefix.mp hp
  have hlen : r2.path.length = r.path.length := by
    rw [← hwf.1 r2 hr2, ← hwf.1 r hr, hd, hd2]
  exact hwf.2.2.2 r2 hr2 r hr (h2.eq_of_length hlen)

/-- Two roots sitting above the same row coincide. -/
theorem roots_above_same_row (t : List CatNode) (hwf : wfTable t) (r r2 x : CatNode)
    (hr : r ∈ t) (hr2 : r2 ∈ t) (hd : r.depth = 1) (hd2 : r2.depth = 1)
    (hpx : List.isPrefixOf r.path x.path = true)
    (hp2 : List.isPrefixOf r2.path x.path = true) : r = r2 := by
  have h1 : r.path <+: x.path := List.isPrefixOf_iff_prefix.mp hpx
  have h2 : r2.path <+: x.path := List.isPrefixOf_iff_prefix.mp hp2
  have hle : r.path.length ≤ r2.path.length := by
    rw [← hwf.1 r hr, ← hwf.1 r2 hr2, hd, hd2]
  have hp12 : r.path <+: r2.path := List.prefix_of_prefix_length_le h1 h2 hle
  have hlen : r.path.length = r2.path.length := by
    rw [← hwf.1 r hr, ← hwf.1 r2 hr2, hd, hd2]
  exact hwf.2.2.2 r hr r2 hr2 (hp12.eq_of_length hlen)

/-- The whole `fix_tree` fold over a duplicate-free list of fetched roots:
the final table is a tracked rewrite of the original, every processed
root's row ends with `ancestors_are_public = true`, and the subtree of
every processed root whose fetched flag was true ends correctly
recomputed. -/
theorem fold_roots_spec (t : List CatNode) (hwf : wfTable t) :
    ∀ (rs s : List CatNode),
      (∀ r2 ∈ rs, r2 ∈ t ∧ r2.depth = 1) → rs.Nodup →
      (∃ g, aapPresOn t g ∧ s = t.map g) →
      (∃ g, aapPresOn t g ∧ rs.foldl fixRoot s = t.map g) ∧
      (∀ r ∈ rs, ∀ y ∈ rs.foldl fixRoot s, y.id = r.id → y.ancestors_are_public = true) ∧
      (∀ r ∈ rs, r.ancestors_are_public = true →
        ∀ y ∈ rs.foldl fixRoot s, List.isPrefixOf r.path y.path = true →
          y.ancestors_are_public = !hasNonPublicAncestor t y.path y.depth) := by
  intro rs
  induction rs with
  | nil =>
      intro s _ _ hs
      refine ⟨hs, ?_, ?_⟩
      · intro r hr
        exact absurd hr (List.not_mem_nil r)
      · intro r hr
        exact absurd hr (List.not_mem_nil r)
  | cons r rest ih =>
      intro s hmem hnd hs
      have hrt : r ∈ t := (hmem r (List.mem_cons_self r rest)).1
      have hrd : r.depth = 1 := (hmem r (List.mem_cons_self r rest)).2
      have hs1 : ∃ g, aapPresOn t g ∧ fixRoot s r = t.map g := fixRoot_corr t s r hwf hs hrt
      have hrest_mem : ∀ r2 ∈ rest, r2 ∈ t ∧ r2.depth = 1 :=
        fun r2 h2 => hmem r2 (List.mem_cons_of_mem r h2)
      have hrnotin : r ∉ rest := (List.nodup_cons.mp hnd).1
      have hndrest : rest.Nodup := (List.nodup_cons.mp hnd).2
      have hner : ∀ r2 ∈ rest, r2 ≠ r := by
        intro r2 h2 he
        exact hrnotin (he ▸ h2)
      obtain ⟨hcorr, hii, hiii⟩ := ih (fixRoot s r) hrest_mem hndrest hs1
      refine ⟨hcorr, ?_, ?_⟩
      · intro r0 hr0 y hy hid
        rcases List.mem_cons.mp hr0 with heq | hr0rest
        · subst heq
          refine foldl_fixRoot_keeps t hwf (fun _ _ id0 => id0 = r0.id) (fun _ _ => true)
            rest (fixRoot s r0) hs1 ?_ ?_ (fun r3 h3 => (hrest_mem r3 h3).1) y hy hid
          · intro r2 h2 x hx hselx
            have hx0 : x = r0 := hwf.2.2.1 x hx r0 hrt hselx
            constructor
            · intro hidc
              have : r2 = r0 :=
                hwf.2.2.1 r2 (hrest_mem r2 h2).1 r0 hrt (by rw [← hidc, hx0])
              exact hner r2 h2 this
            · intro hsub
              have hre : r2 = r0 := prefix_root_eq t hwf r0 r2 hrt (hrest_mem r2 h2).1
                hrd (hrest_mem r2 h2).2 (by rw [← hx0]; exact hsub.1)
              exact hner r2 h2 hre
          · intro y1 hy1 hsel1
            exact fixRoot_root_true t s r0 hwf hs hrt hrd y1 hy1 hsel1
        · exact hii r0 hr0rest y hy hid
      · intro r0 hr0 haap y hy hpre
        rcases List.mem_cons.mp hr0 with heq | hr0rest
        · subst heq
          refine foldl_fixRoot_keeps t hwf
            (fun p _ _ => List.isPrefixOf r0.path p = true) (fun p d => !hasNonPublicAncestor t p d)
            rest (fixRoot s r0) hs1 ?_ ?_ (fun r3 h3 => (hrest_mem r3 h3).1) y hy hpre
          · intro r2 h2 x hx hselx
            constructor
            · intro hxid
              have hxr2 : x = r2 := hwf.2.2.1 x hx r2 (hrest_mem r2 h2).1 hxid
              have : r0 = r2 := prefix_root_eq t hwf r2 r0 (hrest_mem r2 h2).1 hrt
                (hrest_mem r2 h2).2 hrd (by rw [← hxr2]; exact hselx)
              exact hner r2 h2 this.symm
            · intro hsub
              have : r0 = r2 := roots_above_same_row t hwf r0 r2 x hrt
                (hrest_mem r2 h2).1 hrd (hrest_mem r2 h2).2 hselx hsub.1
              exact hner r2 h2 this.symm
          · intro y1 hy1 hsel1
            exact fixRoot_subtree_correct t s r0 hwf hs hrt hrd haap y1 hy1 hsel1
        · exact hiii r0 hr0rest haap y hy hpre


/-- C8 (amended).  After `fix_tree()` on a structurally sound,
duplicate-free table: every root row ends with `ancestors_are_public =
true` regardless of the value stored before the call; and for every root
whose stored flag was already true, every row of that root's subtree has
`ancestors_are_public` correctly recomputed against the final table.  (The
roots repaired from a stored false flag are saved alone — `fix_tree` does
not recompute their subtrees; see the counterexample.) -/
theorem fixTree_roots_and_public_subtrees (t : List CatNode)
    (hwf : wfTable t) (hnd : t.Nodup) :
    (∀ y ∈ fix_tree t, y.depth = 1 → y.ancestors_are_public = true) ∧
    (∀ r ∈ get_root_nodes t, r.ancestors_are_public = true →
      ∀ y ∈ fix_tree t, List.isPrefixOf r.path y.path = true →
        y.ancestors_are_public = !hasNonPublicAncestor (fix_tree t) y.path y.depth) := by
  have hroots : ∀ r2 ∈ get_root_nodes t, r2 ∈ t ∧ r2.depth = 1 := by
    intro r2 h2
    have hm := List.mem_filter.mp h2
    exact ⟨hm.1, eq_of_beq hm.2⟩
  have hndr : (get_root_nodes t).Nodup := hnd.filter _
  obtain ⟨hcorr, hii, hiii⟩ := fold_roots_spec t hwf (get_root_nodes t) t hroots hndr
    ⟨id, (aapPresOn_id t).1, (aapPresOn_id t).2⟩
  have hfix : fix_tree t = (get_root_nodes t).foldl fixRoot t := rfl
  have hfinvis : ∀ p d,
      hasNonPublicAncestor (fix_tree t) p d = hasNonPublicAncestor t p d := by
    obtain ⟨g, hg, heq⟩ := hcorr
    intro p d
    rw [hfix, heq]
    exact hNPA_corr t g hg p d
  constructor
  · intro y hy hd1
    obtain ⟨g, hg, heq⟩ := hcorr
    have hy2 : y ∈ t.map g := by
      rw [← heq, ← hfix]
      exact hy
    rcases List.mem_map.mp hy2 with ⟨x, hx, rfl⟩
    rcases hg x hx with ⟨k1, k2, k3, k4⟩
    have hxd : x.depth = 1 := by
      rw [← k3]
      exact hd1
    have hxroot : x ∈ get_root_nodes t := List.mem_filter.mpr ⟨hx, beq_iff_eq.mpr hxd⟩
    have hy3 : g x ∈ (get_root_nodes t).foldl fixRoot t := by
      rw [← hfix]
      exact hy
    exact hii x hxroot (g x) hy3 k1
  · intro r hr haap y hy hpre
    rw [hfinvis]
    have hy3 : y ∈ (get_root_nodes t).foldl fixRoot t := by
      rw [← hfix]
      exact hy
    exact hiii r hr haap y hy3 hpre

/-- Structurally sound two-row table whose root carries a stale
`ancestors_are_public = false` flag: root id 0 (public), child id 1
(public), both flags stored false. -/
def exBroken : List CatNode :=
  [{ id := 0, path := [1], depth := 1, slug := "a", is_public := true,
     ancestors_are_public := false },
   { id := 1, path := [1, 1], depth := 2, slug := "b", is_public := true,
     ancestors_are_public := false }]

/-- Counterexample to C8 as stated: on `exBroken`, `fix_tree` takes the
false branch for the root (saving the root row alone, without
`set_ancestors_are_public`), so the child row keeps
`ancestors_are_public = false` although its only strict ancestor is public
— the claim that every descendant's flag reflects its (repaired) ancestor
chain after `fix_tree` fails at the child (id 1, path [1,1], depth 2). -/
theorem fixTree_counterexample :
    wfTable exBroken ∧ exBroken.Nodup ∧
    fix_tree exBroken =
      [{ id := 0, path := [1], depth := 1, slug := "a", is_public := true,
         ancestors_are_public := true },
       { id := 1, path := [1, 1], depth := 2, slug := "b", is_public := true,
         ancestors_are_public := false }] ∧
    hasNonPublicAncestor (fix_tree exBroken) [1, 1] 2 = false ∧
    ¬ correctTable (fix_tree exBroken) := by
  refine ⟨by decide, by decide, by decide, by decide, by decide⟩

/-- Witness for the amended C8 at the concrete three-level chain whose
root flag is already true. -/
theorem fixTree_roots_and_public_subtrees_witness :
    wfTable exCat ∧ exCat.Nodup ∧
    ((∀ y ∈ fix_tree exCat, y.depth = 1 → y.ancestors_are_public = true) ∧
      (∀ r ∈ get_root_nodes exCat, r.ancestors_are_public = true →
        ∀ y ∈ fix_tree exCat, List.isPrefixOf r.path y.path = true →
          y.ancestors_are_public =
            !hasNonPublicAncestor (fix_tree exCat) y.path y.depth)) :=
  ⟨by decide, by decide, fixTree_roots_and_public_subtrees exCat (by decide) (by decide)⟩


/-! ## Full-slug claim (C9) -/

/-- Root category of the spec's slug example: slug "a". -/
def exSlugA : CatNode :=
  { id := 0, path := [1], depth := 1, slug := "a", is_public := true,
    ancestors_are_public := true }

/-- Child category, slug "b". -/
def exSlugB : CatNode :=
  { id := 1, path := [1, 1], depth := 2, slug := "b", is_public := true,
    ancestors_are_public := true }

/-- Grandchild category, slug "c". -/
def exSlugC : CatNode :=
  { id := 2, path := [1, 1, 1], depth := 3, slug := "c", is_public := true,
    ancestors_are_public := true }

/-- The three-level chain a / b / c. -/
def exSlugTable : List CatNode := [exSlugA, exSlugB, exSlugC]

/-- C9.  `get_full_slug`: a root category returns its own slug unmodified
(with the cache untouched); on the chain a/b/c the grandchild returns
"a/b/c", filling the (locale, id)-keyed cache entries for itself and its
parent on this first read; the cache is never invalidated, so after the
root's slug is renamed to "z" the same call with the populated cache still
returns the stale "a/b/c" (and leaves the cache as it was), while the same
call with an empty cache would return the fresh "z/b/c". -/
theorem fullSlug_spec :
    (∀ (t : List CatNode) (locale : String) (σ : SlugCache) (fuel : Nat) (x : CatNode),
      x.is_root = true → get_full_slug t locale (fuel + 1) σ x = some (x.slug, σ)) ∧
    get_full_slug exSlugTable "en" 3 [] exSlugC =
      some ("a/b/c", [("CATEGORY_URL_en_2", "a/b/c"), ("CATEGORY_URL_en_1", "a/b")]) ∧
    get_full_slug (setSlug exSlugTable 0 "z") "en" 3
        [("CATEGORY_URL_en_2", "a/b/c"), ("CATEGORY_URL_en_1", "a/b")] exSlugC =
      some ("a/b/c", [("CATEGORY_URL_en_2", "a/b/c"), ("CATEGORY_URL_en_1", "a/b")]) ∧
    get_full_slug (setSlug exSlugTable 0 "z") "en" 3 [] exSlugC =
      some ("z/b/c", [("CATEGORY_URL_en_2", "z/b/c"), ("CATEGORY_URL_en_1", "z/b")]) := by
  refine ⟨?_, rfl, rfl, rfl⟩
  intro t locale σ fuel x hroot
  show (if x.is_root = true then some (x.slug, σ)
    else
      match cacheGet σ (get_url_cache_key locale x) with
      | some s => some (s, σ)
      | none =>
          match get_parent t x with
          | none => none
          | some parent =>
              match get_full_slug t locale fuel σ parent with
              | none => none
              | some (parent_slug, σ1) =>
                  some (parent_slug ++ "/" ++ x.slug,
                    cacheSet σ1 (get_url_cache_key locale x) (parent_slug ++ "/" ++ x.slug))) =
    some (x.slug, σ)
  rw [if_pos hroot]

/-- Witness for C9's root clause at the concrete root "a". -/
theorem fullSlug_spec_witness :
    exSlugA.is_root = true ∧
    get_full_slug exSlugTable "en" 1 [] exSlugA = some ("a", []) :=
  ⟨rfl, fullSlug_spec.1 exSlugTable "en" [] 0 exSlugA rfl⟩


/-- Witness for C6: the empty cart table and owner 42. -/
theorem getOrCreate_idempotent_witness :
    (∀ o st, ((({ rows := [], next_id := 1 } : CartStore)).rows.filter
        fun c => c.owner == o && c.status == st).length ≤ 1) ∧
    ((∃ i s1, CartStore.get_or_create { rows := [], next_id := 1 } 42 OPEN = some (i, s1) ∧
        s1.get_or_create 42 OPEN = some (i, s1) ∧
        (s1.rows.filter fun c => c.owner == 42 && c.status == OPEN).length ≤ 1) ∧
      ∀ calls : List (Nat × String), ∀ o st,
        ((CartStore.runCalls { rows := [], next_id := 1 } calls).rows.filter
          fun c => c.owner == o && c.status == st).length ≤ 1) :=
  ⟨fun o st => by simp, getOrCreate_idempotent { rows := [], next_id := 1 } 42
    (fun o st => by simp)⟩


end Shop
